import Mathlib

/-!
Verification of `bridge_functions.py`: a shallow embedding of the bridge
dataset operations (haversine distance, radius query, condition lookup,
greedy route planning, raw-data cleaning) together with proofs of the
specified properties.

Modelling conventions:
* Python floats holding coordinates are embedded as real numbers `ℝ`
  (the haversine computation uses transcendental functions); Python's
  `round(x, 3)` is embedded as exact rounding of the real value.
* Python floats holding BCI scores, span lengths and deck lengths are
  embedded as rationals `ℚ` (the program only ever compares them and
  averages them; the data is decimal text).
* Python `int` is embedded as `ℤ`.
* A Python list of bridge rows is a `List Bridge`; the positional columns
  of a row become named fields of the structure `Bridge`.
* In-place mutation (e.g. `inspect_bridge`) is embedded as a function
  returning the updated collection.
* `find_worst_bci` can fall through with `worst_bridge_id = None`
  (when no candidate carries a non-missing score); this is embedded with
  `Option`: the route list of `map_route` is a `List (Option ℤ)` whose
  entries are all `some` under the documented preconditions.
-/

set_option linter.unusedVariables false

/-- `MISSING_BCI = -1.0`: sentinel for a missing BCI score. -/
def MISSING_BCI : ℚ := -1

/-- `EARTH_RADIUS = 6371` (kilometres). -/
noncomputable def EARTH_RADIUS : ℝ := 6371

/-- A bridge record; one named field per positional column of the source's
row representation (`COLUMN_ID` .. `COLUMN_BCI`). The BCI history pair
`[years, scores]` becomes the two fields `bci_years`, `bci_scores`. -/
structure Bridge where
  id : ℤ
  name : String
  highway : String
  lat : ℝ
  lon : ℝ
  year_built : String
  last_major_rehab : String
  last_minor_rehab : String
  num_spans : ℤ
  span_details : List ℚ
  deck_length : ℚ
  last_inspected : String
  bci_years : List String
  bci_scores : List ℚ

/-- `math.radians`: degrees to radians. -/
noncomputable def deg_to_rad (x : ℝ) : ℝ := x * (Real.pi / 180)

/-- Python's `round(x, 3)` on the exact real value: round to a multiple of
`1/1000`. (The claims proved below are insensitive to the tie-breaking
mode of rounding.) -/
noncomputable def round3 (x : ℝ) : ℝ := ((round (x * 1000) : ℤ) : ℝ) / 1000

/-- `calculate_distance(lat1, lon1, lat2, lon2)`: haversine great-circle
distance in kilometres, rounded to the nearest metre. This inlines the
source's locals `lon_diff`, `lat_diff`, `a`, `c`. -/
noncomputable def calculate_distance (lat1 lon1 lat2 lon2 : ℝ) : ℝ :=
  round3 (2 * Real.arcsin (Real.sqrt
      (Real.sin ((deg_to_rad lat2 - deg_to_rad lat1) / 2) ^ 2
        + Real.cos (deg_to_rad lat1) * Real.cos (deg_to_rad lat2)
          * Real.sin ((deg_to_rad lon2 - deg_to_rad lon1) / 2) ^ 2))
    * EARTH_RADIUS)

/-- The inner scanning loop shared by `get_bridge_condition` and
`find_worst_bci`: the first score in the history (index 0 forward, i.e.
most recent first) that differs from `MISSING_BCI`, if any. -/
def first_bci_score : List ℚ → Option ℚ
  | [] => none
  | s :: rest => if s ≠ MISSING_BCI then some s else first_bci_score rest

/-- `get_bridge_condition(bridges, bridge_id)`: scan the collection; at a
bridge whose id matches, return the first non-missing score; if that
bridge has none, the source's outer loop falls through and keeps
scanning; if nothing is found return `MISSING_BCI`. -/
def get_bridge_condition : List Bridge → ℤ → ℚ
  | [], _ => MISSING_BCI
  | b :: rest, bridge_id =>
    if b.id = bridge_id then
      match first_bci_score b.bci_scores with
      | some s => s
      | none => get_bridge_condition rest bridge_id
    else get_bridge_condition rest bridge_id

open Classical in
/-- `find_bridges_in_radius(bridges, lat, lon, radius, exclusions)`: ids of
the non-excluded bridges whose distance to `(lat, lon)` is at most
`radius`, in collection order. -/
noncomputable def find_bridges_in_radius (bridges : List Bridge)
    (lat lon radius : ℝ) (exclusions : List ℤ) : List ℤ :=
  match bridges with
  | [] => []
  | b :: rest =>
    if b.id ∉ exclusions then
      if calculate_distance b.lat b.lon lat lon ≤ radius then
        b.id :: find_bridges_in_radius rest lat lon radius exclusions
      else find_bridges_in_radius rest lat lon radius exclusions
    else find_bridges_in_radius rest lat lon radius exclusions

/-- Embedding of Python's `int(...)` on the year strings stored in a BCI
history: the value of a string of decimal digits. -/
def str_to_int (s : String) : ℤ :=
  ((s.data.foldl (fun a c => 10 * a + (c.toNat - 48)) 0 : ℕ) : ℤ)

/-- `calculate_average_condition(bridge, start, stop)`: iterate the history
(years paired with scores), total the non-missing scores whose year lies
in `[start, stop]` (both inclusive, as the source's loop does), and
return `total / count`, or `0.0` when `count == 0`. -/
def calculate_average_condition (bridge : Bridge) (start stop : ℤ) : ℚ :=
  let acc := (bridge.bci_years.zip bridge.bci_scores).foldl
    (fun (tc : ℚ × ℕ) ys =>
      if start ≤ str_to_int ys.1 ∧ str_to_int ys.1 ≤ stop ∧ ys.2 ≠ MISSING_BCI
      then (tc.1 + ys.2, tc.2 + 1) else tc) (0, 0)
  if acc.2 = 0 then 0 else acc.1 / (acc.2 : ℚ)

/-- Python's `inspect_date[6:10]`: the year characters of an
`MM/DD/YYYY` date string. -/
def date_year_chars (s : String) : String := ⟨(s.data.drop 6).take 4⟩

/-- `inspect_bridge(bridges, bridge_id, inspect_date, inspect_bci)`: set the
last-inspected field of every bridge whose id matches to the full date
string, and assign the date's year characters and the new score into
index 0 of its history lists. (The source's `lst[0] = x` assumes the
history lists are non-empty, as the theorems below hypothesise.) -/
def inspect_bridge (bridges : List Bridge) (bridge_id : ℤ)
    (inspect_date : String) (inspect_bci : ℚ) : List Bridge :=
  bridges.map fun b =>
    if b.id = bridge_id then
      { b with last_inspected := inspect_date,
               bci_years := b.bci_years.set 0 (date_year_chars inspect_date),
               bci_scores := b.bci_scores.set 0 inspect_bci }
    else b

/-- One step of `find_worst_bci`'s loop body for bridge `b`: the running
state is `none` while `lowest_bci is None` and `some (lowest, worst)`
afterwards (the source keeps the two variables in lock-step). Only the
first non-missing score of `b` participates (the source `break`s). -/
def find_worst_step (bridge_ids : List ℤ) (st : Option (ℚ × ℤ))
    (b : Bridge) : Option (ℚ × ℤ) :=
  if b.id ∈ bridge_ids then
    match first_bci_score b.bci_scores with
    | none => st
    | some score =>
      match st with
      | none => some (score, b.id)
      | some (lowest, worst) =>
        if score < lowest then some (score, b.id)
        else if score = lowest ∧ b.id < worst then some (lowest, b.id)
        else some (lowest, worst)
  else st

/-- `find_worst_bci(bridges, bridge_ids)`: the id of the candidate with
the numerically lowest first non-missing score, smaller id on ties;
`none` when no candidate carries a score (the source returns `None`). -/
def find_worst_bci (bridges : List Bridge) (bridge_ids : List ℤ) : Option ℤ :=
  (bridges.foldl (find_worst_step bridge_ids) none).map Prod.snd

open Classical in
/-- The candidate-gathering loop inlined in `map_route`: ids of unvisited
bridges within `radius` of the current position (like
`find_bridges_in_radius`, but the exclusion list is the visited route,
whose entries are `Option` ids). -/
noncomputable def map_route_candidates (bridges : List Bridge)
    (radius cur_lat cur_lon : ℝ) (visited : List (Option ℤ)) : List ℤ :=
  match bridges with
  | [] => []
  | b :: rest =>
    if some b.id ∉ visited then
      if calculate_distance b.lat b.lon cur_lat cur_lon ≤ radius then
        b.id :: map_route_candidates rest radius cur_lat cur_lon visited
      else map_route_candidates rest radius cur_lat cur_lon visited
    else map_route_candidates rest radius cur_lat cur_lon visited

/-- The position-update loop at the end of `map_route`'s body: coordinates
of the first bridge whose id equals the chosen `next_bridge`, or the
current position unchanged when there is none. -/
def next_coords (bridges : List Bridge) (next_bridge : Option ℤ)
    (cur : ℝ × ℝ) : ℝ × ℝ :=
  match bridges with
  | [] => cur
  | b :: rest =>
    if next_bridge = some b.id then (b.lat, b.lon)
    else next_coords rest next_bridge cur

open Classical in
/-- The `while len(visited) < max_bridges` loop of `map_route`. The
source's locals `candidates` and `next_bridge` are inlined (written out
at each occurrence). -/
noncomputable def map_route_go (bridges : List Bridge) (radius : ℝ)
    (max_bridges : ℤ) (cur_lat cur_lon : ℝ) (visited : List (Option ℤ)) :
    List (Option ℤ) :=
  if _h : (visited.length : ℤ) < max_bridges then
    if map_route_candidates bridges radius cur_lat cur_lon visited = [] then
      visited
    else
      map_route_go bridges radius max_bridges
        (next_coords bridges (find_worst_bci bridges
          (map_route_candidates bridges radius cur_lat cur_lon visited))
          (cur_lat, cur_lon)).1
        (next_coords bridges (find_worst_bci bridges
          (map_route_candidates bridges radius cur_lat cur_lon visited))
          (cur_lat, cur_lon)).2
        (visited ++ [find_worst_bci bridges
          (map_route_candidates bridges radius cur_lat cur_lon visited)])
  else visited
termination_by (max_bridges - visited.length).toNat
decreasing_by simp only [List.length_append, List.length_cons,
  List.length_nil]; omega

/-- `map_route(bridges, lat, lon, max_bridges, radius)`: run the greedy
route loop starting from `(lat, lon)` with an empty visited list. -/
noncomputable def map_route (bridges : List Bridge) (lat lon : ℝ)
    (max_bridges : ℤ) (radius : ℝ) : List (Option ℤ) :=
  map_route_go bridges radius max_bridges lat lon []

open Classical in
/-- Fuel-indexed version of the `map_route` loop: runs at most `fuel`
iterations and returns `none` if the loop guard is still live when the
fuel runs out. Used to state that the source's `while` loop terminates
within `max_bridges` iterations. -/
noncomputable def map_route_fuel (bridges : List Bridge) (radius : ℝ)
    (max_bridges : ℤ) : ℕ → ℝ → ℝ → List (Option ℤ) →
    Option (List (Option ℤ))
  | 0, cur_lat, cur_lon, visited =>
    if (visited.length : ℤ) < max_bridges then
      if map_route_candidates bridges radius cur_lat cur_lon visited = []
      then some visited
      else none
    else some visited
  | fuel + 1, cur_lat, cur_lon, visited =>
    if (visited.length : ℤ) < max_bridges then
      if map_route_candidates bridges radius cur_lat cur_lon visited = []
      then some visited
      else
        map_route_fuel bridges radius max_bridges fuel
          (next_coords bridges (find_worst_bci bridges
            (map_route_candidates bridges radius cur_lat cur_lon visited))
            (cur_lat, cur_lon)).1
          (next_coords bridges (find_worst_bci bridges
            (map_route_candidates bridges radius cur_lat cur_lon visited))
            (cur_lat, cur_lon)).2
          (visited ++ [find_worst_bci bridges
            (map_route_candidates bridges radius cur_lat cur_lon visited)])
    else some visited

/-! ### Concrete data for witnesses -/

/-- Builder for concrete bridge records used in witnesses (fields the
claims do not constrain are filled with defaults). -/
noncomputable def mkBridge (i : ℤ) (la lo : ℝ) (ys : List String)
    (ss : List ℚ) : Bridge :=
  { id := i, name := "", highway := "", lat := la, lon := lo,
    year_built := "", last_major_rehab := "", last_minor_rehab := "",
    num_spans := 1, span_details := [], deck_length := 0,
    last_inspected := "", bci_years := ys, bci_scores := ss }

noncomputable def wb1 : Bridge :=
  mkBridge 1 0 0 ["2013", "2012"] [MISSING_BCI, 70]

noncomputable def wb2 : Bridge :=
  mkBridge 2 0 0 ["2013", "2012"] [MISSING_BCI, MISSING_BCI]

/-! ### C2: the spatial radius query -/

open Classical in
/-- C2: `find_bridges_in_radius` returns exactly the identifiers of the
bridges whose distance to the centre is at most `radius` (boundary
inclusive) and that are not excluded, in their order of appearance in
the input collection. (The embedding is a pure function, so the input
collection is left unmodified by construction.) -/
theorem find_bridges_in_radius_spec (bridges : List Bridge)
    (lat lon radius : ℝ) (exclusions : List ℤ) (hradius : 0 < radius) :
    find_bridges_in_radius bridges lat lon radius exclusions =
      (bridges.filter (fun b => decide (b.id ∉ exclusions ∧
        calculate_distance b.lat b.lon lat lon ≤ radius))).map Bridge.id ∧
    ∀ i : ℤ, i ∈ find_bridges_in_radius bridges lat lon radius exclusions ↔
      ∃ b ∈ bridges, b.id = i ∧
        calculate_distance b.lat b.lon lat lon ≤ radius ∧ i ∉ exclusions := by
  have h1 : find_bridges_in_radius bridges lat lon radius exclusions =
      (bridges.filter (fun b => decide (b.id ∉ exclusions ∧
        calculate_distance b.lat b.lon lat lon ≤ radius))).map Bridge.id := by
    induction bridges with
    | nil => simp [find_bridges_in_radius]
    | cons b rest ih =>
      rw [find_bridges_in_radius]
      by_cases hx : b.id ∉ exclusions
      · by_cases hd : calculate_distance b.lat b.lon lat lon ≤ radius
        · simp [hx, hd, ih]
        · simp [hx, hd, ih]
      · simp [hx, ih]
  refine ⟨h1, fun i => ?_⟩
  rw [h1]
  simp only [List.mem_map, List.mem_filter, decide_eq_true_eq]
  constructor
  · rintro ⟨b, ⟨hb, hnx, hd⟩, rfl⟩
    exact ⟨b, hb, rfl, hd, hnx⟩
  · rintro ⟨b, hb, rfl, hd, hnx⟩
    exact ⟨b, ⟨hb, hnx, hd⟩, rfl⟩

open Classical in
/-- Witness for C2 at a concrete input. -/
theorem find_bridges_in_radius_spec_witness :
    find_bridges_in_radius [wb1] 0 0 1 [] =
      ([wb1].filter (fun b => decide (b.id ∉ ([] : List ℤ) ∧
        calculate_distance b.lat b.lon 0 0 ≤ 1))).map Bridge.id ∧
    ∀ i : ℤ, i ∈ find_bridges_in_radius [wb1] 0 0 1 [] ↔
      ∃ b ∈ [wb1], b.id = i ∧
        calculate_distance b.lat b.lon 0 0 ≤ 1 ∧ i ∉ ([] : List ℤ) :=
  find_bridges_in_radius_spec [wb1] 0 0 1 [] zero_lt_one

/-! ### C4: most-recent-score lookup -/

/-- C4: `get_bridge_condition` returns the first score different from the
sentinel scanning the identified bridge's history from index 0 forward,
and returns the sentinel `-1.0` as a normal value both when no bridge
has the identifier and when every score of that bridge is the sentinel.
The uniqueness hypothesis is the data model's standing invariant; it is
what makes "the identified bridge" well defined. -/
theorem get_bridge_condition_spec (bridges : List Bridge) (bridge_id : ℤ)
    (huniq : (bridges.map Bridge.id).Nodup) :
    ((∀ b ∈ bridges, b.id ≠ bridge_id) →
        get_bridge_condition bridges bridge_id = MISSING_BCI) ∧
    ∀ b ∈ bridges, b.id = bridge_id →
      get_bridge_condition bridges bridge_id =
        (first_bci_score b.bci_scores).getD MISSING_BCI := by
  induction bridges with
  | nil => simp [get_bridge_condition]
  | cons a rest ih =>
    simp only [List.map_cons, List.nodup_cons, List.mem_map] at huniq
    obtain ⟨hnot, hrest⟩ := huniq
    have ihr := ih hrest
    constructor
    · intro hne
      have ha : a.id ≠ bridge_id := hne a (List.mem_cons_self a rest)
      rw [get_bridge_condition, if_neg ha]
      exact ihr.1 fun b hb => hne b (List.mem_cons_of_mem a hb)
    · intro b hb hbid
      rcases List.mem_cons.mp hb with rfl | hbr
      · rw [get_bridge_condition, if_pos hbid]
        rcases hf : first_bci_score b.bci_scores with _ | s
        · simp only [Option.getD_none]
          exact ihr.1 fun b' hb' heq =>
            hnot ⟨b', hb', by rw [heq, hbid]⟩
        · simp
      · have ha : a.id ≠ bridge_id := fun heq =>
          hnot ⟨b, hbr, by rw [hbid, heq]⟩
        rw [get_bridge_condition, if_neg ha]
        exact ihr.2 b hbr hbid

/-- Witness for C4: a concrete collection where bridge 2 exists but all
its scores are the sentinel, so the lookup returns the sentinel. -/
theorem get_bridge_condition_spec_witness :
    get_bridge_condition [wb1, wb2] 2 =
      (first_bci_score wb2.bci_scores).getD MISSING_BCI :=
  (get_bridge_condition_spec [wb1, wb2] 2 (by decide)).2 wb2 (by simp) rfl

/-! ### C5: average condition over a year window -/

/-- Spec-side description for C5: the non-missing scores whose year lies
in the inclusive window `[start, stop]`, as they appear in the history. -/
def qualifying_scores (bridge : Bridge) (start stop : ℤ) : List ℚ :=
  ((bridge.bci_years.zip bridge.bci_scores).filter
    (fun ys => decide (start ≤ str_to_int ys.1 ∧ str_to_int ys.1 ≤ stop ∧
      ys.2 ≠ MISSING_BCI))).map Prod.snd

theorem avg_foldl (start stop : ℤ) (l : List (String × ℚ)) :
    ∀ (t : ℚ) (c : ℕ),
      l.foldl (fun (tc : ℚ × ℕ) ys =>
        if start ≤ str_to_int ys.1 ∧ str_to_int ys.1 ≤ stop ∧
            ys.2 ≠ MISSING_BCI
        then (tc.1 + ys.2, tc.2 + 1) else tc) (t, c) =
      (t + ((l.filter (fun ys => decide (start ≤ str_to_int ys.1 ∧
          str_to_int ys.1 ≤ stop ∧ ys.2 ≠ MISSING_BCI))).map Prod.snd).sum,
        c + (l.filter (fun ys => decide (start ≤ str_to_int ys.1 ∧
          str_to_int ys.1 ≤ stop ∧ ys.2 ≠ MISSING_BCI))).length) := by
  induction l with
  | nil => intro t c; simp
  | cons a l ih =>
    intro t c
    rw [List.foldl_cons]
    by_cases h : start ≤ str_to_int a.1 ∧ str_to_int a.1 ≤ stop ∧
        a.2 ≠ MISSING_BCI
    · rw [if_pos h, ih, List.filter_cons_of_pos (by simpa using h)]
      simp only [List.map_cons, List.sum_cons, List.length_cons]
      exact Prod.ext (by ring) (by omega)
    · rw [if_neg h, ih, List.filter_cons_of_neg (by simpa using h)]

/-- C5: `calculate_average_condition` returns the arithmetic mean of
exactly the non-missing scores whose year lies in the inclusive window
`[start, stop]`, and `0.0` when no score qualifies. -/
theorem calculate_average_condition_spec (bridge : Bridge)
    (start stop : ℤ) (hss : start ≤ stop) :
    calculate_average_condition bridge start stop =
      if (qualifying_scores bridge start stop).length = 0 then 0
      else (qualifying_scores bridge start stop).sum /
        ((qualifying_scores bridge start stop).length : ℚ) := by
  unfold calculate_average_condition qualifying_scores
  rw [avg_foldl]
  simp only [zero_add, List.length_map]

noncomputable def wb5 : Bridge :=
  mkBridge 3 0 0 ["2006", "2005"] [70, MISSING_BCI]

/-- Witness for C5: the window `[2005, 2005]` on a bridge whose 2005 score
is missing yields `0.0`. -/
theorem calculate_average_condition_spec_witness :
    (2005 : ℤ) ≤ 2005 ∧ calculate_average_condition wb5 2005 2005 = 0 :=
  ⟨le_refl _,
    (calculate_average_condition_spec wb5 2005 2005 le_rfl).trans (by decide)⟩

/-! ### C8: cleaning the raw BCI history -/

/-- The loop body of `clean_bci_data`, carried out recursively: `i` is the
running loop index. A raw BCI cell from the CSV tail is, per the
source's precondition, either an empty string (embedded as `none`) or
numeric text denoting a rational (embedded as `some q`, so Python's
`float(...)` is the extraction of `q`). Each step appends
`str(start_year - i)` to the years and replaces cell `i` of the scores
(empty becomes `MISSING_BCI`, numeric text becomes its float value). -/
def clean_bci_go (start_year : ℤ) (i : ℕ) : List (Option ℚ) →
    List String × List ℚ
  | [] => ([], [])
  | c :: rest =>
    (toString (start_year - (i : ℤ)) :: (clean_bci_go start_year (i + 1) rest).1,
      (match c with | none => MISSING_BCI | some q => q) ::
        (clean_bci_go start_year (i + 1) rest).2)

/-- `clean_bci_data(bci_years, start_year, bci_scores)`: extend `bci_years`
with year strings counting down from `start_year` in lock-step with the
scores, and convert every score cell. Returns the pair of updated lists
(the source updates them in place). -/
def clean_bci_data (bci_years : List String) (start_year : ℤ)
    (bci_scores : List (Option ℚ)) : List String × List ℚ :=
  (bci_years ++ (clean_bci_go start_year 0 bci_scores).1,
    (clean_bci_go start_year 0 bci_scores).2)

theorem clean_bci_go_eq (start_year : ℤ) (raw : List (Option ℚ)) :
    ∀ i : ℕ, clean_bci_go start_year i raw =
      ((List.range raw.length).map
          (fun k : ℕ => toString (start_year - ((i : ℤ) + (k : ℤ)))),
        raw.map (fun c => c.getD MISSING_BCI)) := by
  induction raw with
  | nil => intro i; simp [clean_bci_go]
  | cons c rest ih =>
    intro i
    simp only [clean_bci_go]
    rw [ih (i + 1)]
    refine Prod.ext ?_ ?_
    · simp only [List.length_cons, List.range_succ_eq_map, List.map_cons,
        List.map_map]
      refine List.cons_eq_cons.mpr ⟨by rw [Nat.cast_zero, add_zero], ?_⟩
      apply List.map_congr_left
      intro k hk
      simp only [Function.comp_apply]
      congr 1
      push_cast
      ring
    · cases c <;> simp [Option.getD]

/-- C8: on an initially empty years list and a non-empty raw score list,
`clean_bci_data` produces the year strings `start_year, start_year - 1,
...` (most recent first, one per score, never read from raw text) and
maps every empty cell to exactly `MISSING_BCI` and every numeric cell to
its value, preserving positions. -/
theorem clean_bci_data_spec (start_year : ℤ) (raw : List (Option ℚ))
    (hne : raw ≠ []) :
    clean_bci_data [] start_year raw =
      ((List.range raw.length).map
          (fun k : ℕ => toString (start_year - (k : ℤ))),
        raw.map (fun c => c.getD MISSING_BCI)) := by
  unfold clean_bci_data
  rw [clean_bci_go_eq start_year raw 0]
  simp

/-- Witness for C8: `start_year = 2013` with nine scores yields the years
`['2013', ..., '2005']` and the empty cells become `-1.0`. -/
theorem clean_bci_data_spec_witness :
    ([none, some 72, none, some 69, none, some 70, none, some 70, none] :
        List (Option ℚ)) ≠ [] ∧
    clean_bci_data [] 2013
        [none, some 72, none, some 69, none, some 70, none, some 70, none] =
      (["2013", "2012", "2011", "2010", "2009", "2008", "2007", "2006",
          "2005"],
        [MISSING_BCI, 72, MISSING_BCI, 69, MISSING_BCI, 70, MISSING_BCI,
          70, MISSING_BCI]) :=
  ⟨by decide,
    (clean_bci_data_spec 2013
        [none, some 72, none, some 69, none, some 70, none, some 70, none]
        (by decide)).trans (by decide)⟩

/-! ### C10: the inspection update -/

theorem head?_set_zero {α : Type} (l : List α) (x : α) (h : l ≠ []) :
    (l.set 0 x).head? = some x := by
  cases l with
  | nil => exact absurd rfl h
  | cons a as => rfl

noncomputable def wb10 : Bridge := mkBridge 1 0 0 ["2013", "2012"] [70, 65]

/-- Counterexample for C10 as stated: the claim says the last-inspected
field is set to the date string's year characters, but the code stores
the full date string there (the year characters go into index 0 of the
years list instead). -/
theorem inspect_bridge_claim_cex :
    (inspect_bridge [wb10] 1 "02/14/2021" 71).map Bridge.last_inspected =
      ["02/14/2021"] ∧
    date_year_chars "02/14/2021" = "2021" ∧
    ("02/14/2021" : String) ≠ "2021" := by
  refine ⟨?_, by decide, by decide⟩
  simp [inspect_bridge, wb10, mkBridge]

/-- C10 (amended): `inspect_bridge` assigns into index 0 of the matched
bridge's existing history lists rather than inserting: both lists keep
their lengths (so `len(years) == len(scores)` is preserved), the entries
previously at index 0 are overwritten (by the date's year characters and
the new score), the last-inspected field is set to the full date string,
and every other field of every bridge is unchanged. -/
theorem inspect_bridge_spec (bridges : List Bridge) (bridge_id : ℤ)
    (inspect_date : String) (inspect_bci : ℚ) (b : Bridge)
    (hb : b ∈ bridges) (hbid : b.id = bridge_id)
    (huniq : (bridges.map Bridge.id).Nodup)
    (hys : b.bci_years ≠ []) (hss : b.bci_scores ≠ []) :
    (inspect_bridge bridges bridge_id inspect_date inspect_bci).length =
      bridges.length ∧
    (∀ k (hk : k < bridges.length), bridges[k].id ≠ bridge_id →
      (inspect_bridge bridges bridge_id inspect_date inspect_bci)[k]? =
        some bridges[k]) ∧
    (∀ k (hk : k < bridges.length), bridges[k].id = bridge_id →
      (inspect_bridge bridges bridge_id inspect_date inspect_bci)[k]? =
        some { bridges[k] with
                 last_inspected := inspect_date,
                 bci_years := bridges[k].bci_years.set 0
                   (date_year_chars inspect_date),
                 bci_scores := bridges[k].bci_scores.set 0
                   inspect_bci }) ∧
    (b.bci_years.set 0 (date_year_chars inspect_date)).length =
      b.bci_years.length ∧
    (b.bci_scores.set 0 inspect_bci).length = b.bci_scores.length ∧
    (b.bci_years.length = b.bci_scores.length →
      (b.bci_years.set 0 (date_year_chars inspect_date)).length =
        (b.bci_scores.set 0 inspect_bci).length) ∧
    (b.bci_years.set 0 (date_year_chars inspect_date)).head? =
      some (date_year_chars inspect_date) ∧
    (b.bci_scores.set 0 inspect_bci).head? = some inspect_bci := by
  refine ⟨by simp [inspect_bridge], ?_, ?_, by simp, by simp, by simp, ?_, ?_⟩
  · intro k hk hne
    rw [inspect_bridge]
    rw [List.getElem?_map]
    rw [List.getElem?_eq_getElem hk]
    simp only [Option.map_some']
    rw [if_neg hne]
  · intro k hk heq
    rw [inspect_bridge]
    rw [List.getElem?_map]
    rw [List.getElem?_eq_getElem hk]
    simp only [Option.map_some']
    rw [if_pos heq]
  · exact head?_set_zero b.bci_years (date_year_chars inspect_date) hys
  · exact head?_set_zero b.bci_scores inspect_bci hss

/-- Witness for C10 (amended) at a concrete one-bridge collection. -/
theorem inspect_bridge_spec_witness :
    (inspect_bridge [wb10] 1 "02/14/2021" 71).length = [wb10].length ∧
    (∀ k (hk : k < [wb10].length), [wb10][k].id ≠ 1 →
      (inspect_bridge [wb10] 1 "02/14/2021" 71)[k]? =
        some [wb10][k]) ∧
    (∀ k (hk : k < [wb10].length), [wb10][k].id = 1 →
      (inspect_bridge [wb10] 1 "02/14/2021" 71)[k]? =
        some { [wb10][k] with
                 last_inspected := "02/14/2021",
                 bci_years := [wb10][k].bci_years.set 0
                   (date_year_chars "02/14/2021"),
                 bci_scores := [wb10][k].bci_scores.set 0 71 }) ∧
    (wb10.bci_years.set 0 (date_year_chars "02/14/2021")).length =
      wb10.bci_years.length ∧
    (wb10.bci_scores.set 0 71).length = wb10.bci_scores.length ∧
    (wb10.bci_years.length = wb10.bci_scores.length →
      (wb10.bci_years.set 0 (date_year_chars "02/14/2021")).length =
        (wb10.bci_scores.set 0 71).length) ∧
    (wb10.bci_years.set 0 (date_year_chars "02/14/2021")).head? =
      some (date_year_chars "02/14/2021") ∧
    (wb10.bci_scores.set 0 71).head? = some 71 :=
  inspect_bridge_spec [wb10] 1 "02/14/2021" 71 wb10 (by simp) rfl
    (by decide) (by decide) (by decide)

/-! ### C3: worst-condition selection -/

theorem first_bci_score_eq_none (l : List ℚ) :
    first_bci_score l = none ↔ ∀ s ∈ l, s = MISSING_BCI := by
  induction l with
  | nil => simp [first_bci_score]
  | cons a l ih =>
    rw [first_bci_score]
    by_cases h : a ≠ MISSING_BCI
    · simp [h]
    · push_neg at h
      simp [h, ih]

theorem first_bci_score_isSome (l : List ℚ)
    (h : ∃ s ∈ l, s ≠ MISSING_BCI) :
    ∃ s, first_bci_score l = some s := by
  rcases hf : first_bci_score l with _ | s
  · rw [first_bci_score_eq_none] at hf
    obtain ⟨s, hs, hne⟩ := h
    exact absurd (hf s hs) hne
  · exact ⟨s, rfl⟩

theorem find_worst_step_not_mem (ids : List ℤ) (st : Option (ℚ × ℤ))
    (b : Bridge) (h : b.id ∉ ids) : find_worst_step ids st b = st := by
  unfold find_worst_step
  rw [if_neg h]

theorem find_worst_step_no_score (ids : List ℤ) (st : Option (ℚ × ℤ))
    (b : Bridge) (h : b.id ∈ ids)
    (hf : first_bci_score b.bci_scores = none) :
    find_worst_step ids st b = st := by
  unfold find_worst_step
  rw [if_pos h, hf]

theorem find_worst_step_first (ids : List ℤ) (b : Bridge) (sc : ℚ)
    (h : b.id ∈ ids) (hf : first_bci_score b.bci_scores = some sc) :
    find_worst_step ids none b = some (sc, b.id) := by
  unfold find_worst_step
  rw [if_pos h, hf]

theorem find_worst_step_cmp (ids : List ℤ) (b : Bridge) (sc s : ℚ) (w : ℤ)
    (h : b.id ∈ ids) (hf : first_bci_score b.bci_scores = some sc) :
    find_worst_step ids (some (s, w)) b =
      if sc < s then some (sc, b.id)
      else if sc = s ∧ b.id < w then some (s, b.id)
      else some (s, w) := by
  unfold find_worst_step
  rw [if_pos h, hf]

/-- Loop invariant of `find_worst_bci`: after processing the prefix `seen`
of the collection, the state is `none` exactly while no candidate in
`seen` carried a score, and otherwise holds the lexicographically least
(score, id) pair over the candidates seen so far. -/
def WorstInv (bridge_ids : List ℤ) (seen : List Bridge) :
    Option (ℚ × ℤ) → Prop
  | none => ∀ b ∈ seen, b.id ∈ bridge_ids →
      first_bci_score b.bci_scores = none
  | some sw =>
      (∃ b ∈ seen, b.id ∈ bridge_ids ∧ b.id = sw.2 ∧
        first_bci_score b.bci_scores = some sw.1) ∧
      ∀ b ∈ seen, b.id ∈ bridge_ids →
        ∀ s', first_bci_score b.bci_scores = some s' →
          sw.1 < s' ∨ (sw.1 = s' ∧ sw.2 ≤ b.id)

theorem worstInv_step (bridge_ids : List ℤ) (seen : List Bridge)
    (st : Option (ℚ × ℤ)) (b : Bridge)
    (h : WorstInv bridge_ids seen st) :
    WorstInv bridge_ids (seen ++ [b]) (find_worst_step bridge_ids st b) := by
  by_cases hid : b.id ∈ bridge_ids
  · rcases hf : first_bci_score b.bci_scores with _ | sc
    · rw [find_worst_step_no_score bridge_ids st b hid hf]
      rcases st with _ | ⟨s, w⟩
      · simp only [WorstInv] at h ⊢
        intro x hx hxid
        rcases List.mem_append.mp hx with h1 | h1
        · exact h x h1 hxid
        · rw [List.mem_singleton.mp h1]
          exact hf
      · simp only [WorstInv] at h ⊢
        obtain ⟨⟨b0, hb0, h1, h2, h3⟩, hmin⟩ := h
        refine ⟨⟨b0, List.mem_append_left _ hb0, h1, h2, h3⟩, ?_⟩
        intro x hx hxid s' hs'
        rcases List.mem_append.mp hx with h1 | h1
        · exact hmin x h1 hxid s' hs'
        · obtain rfl := List.mem_singleton.mp h1
          rw [hf] at hs'
          cases hs'
    · rcases st with _ | ⟨s, w⟩
      · rw [find_worst_step_first bridge_ids b sc hid hf]
        simp only [WorstInv] at h ⊢
        refine ⟨⟨b, List.mem_append_right _ (List.mem_singleton_self b),
          hid, rfl, hf⟩, ?_⟩
        intro x hx hxid s' hs'
        rcases List.mem_append.mp hx with h1 | h1
        · rw [h x h1 hxid] at hs'
          cases hs'
        · obtain rfl := List.mem_singleton.mp h1
          rw [hf] at hs'
          right
          exact ⟨Option.some.inj hs', le_refl _⟩
      · rw [find_worst_step_cmp bridge_ids b sc s w hid hf]
        simp only [WorstInv] at h ⊢
        obtain ⟨⟨b0, hb0, hb0id, hb0w, hb0f⟩, hmin⟩ := h
        by_cases hlt : sc < s
        · rw [if_pos hlt]
          refine ⟨⟨b, List.mem_append_right _ (List.mem_singleton_self b),
            hid, rfl, hf⟩, ?_⟩
          intro x hx hxid s' hs'
          rcases List.mem_append.mp hx with h1 | h1
          · rcases hmin x h1 hxid s' hs' with h2 | h2
            · left; exact lt_trans hlt h2
            · left; rw [← h2.1]; exact hlt
          · obtain rfl := List.mem_singleton.mp h1
            rw [hf] at hs'
            right
            exact ⟨Option.some.inj hs', le_refl _⟩
        · rw [if_neg hlt]
          by_cases heqw : sc = s ∧ b.id < w
          · rw [if_pos heqw]
            refine ⟨⟨b, List.mem_append_right _ (List.mem_singleton_self b),
              hid, rfl, by rw [hf, heqw.1]⟩, ?_⟩
            intro x hx hxid s' hs'
            rcases List.mem_append.mp hx with h1 | h1
            · rcases hmin x h1 hxid s' hs' with h2 | h2
              · left; exact h2
              · right; exact ⟨h2.1, le_trans (le_of_lt heqw.2) h2.2⟩
            · obtain rfl := List.mem_singleton.mp h1
              rw [hf] at hs'
              right
              exact ⟨heqw.1.symm.trans (Option.some.inj hs'), le_refl _⟩
          · rw [if_neg heqw]
            refine ⟨⟨b0, List.mem_append_left _ hb0, hb0id, hb0w, hb0f⟩, ?_⟩
            intro x hx hxid s' hs'
            rcases List.mem_append.mp hx with h1 | h1
            · exact hmin x h1 hxid s' hs'
            · obtain rfl := List.mem_singleton.mp h1
              rw [hf] at hs'
              have hscs : sc = s' := Option.some.inj hs'
              rcases lt_or_eq_of_le (le_of_not_lt hlt) with h2 | h2
              · left; rw [← hscs]; exact h2
              · right
                refine ⟨h2.trans hscs, le_of_not_lt fun hbw => ?_⟩
                exact heqw ⟨h2.symm, hbw⟩
  · rw [find_worst_step_not_mem bridge_ids st b hid]
    rcases st with _ | ⟨s, w⟩
    · simp only [WorstInv] at h ⊢
      intro x hx hxid
      rcases List.mem_append.mp hx with h1 | h1
      · exact h x h1 hxid
      · obtain rfl := List.mem_singleton.mp h1
        exact absurd hxid hid
    · simp only [WorstInv] at h ⊢
      obtain ⟨⟨b0, hb0, h1, h2, h3⟩, hmin⟩ := h
      refine ⟨⟨b0, List.mem_append_left _ hb0, h1, h2, h3⟩, ?_⟩
      intro x hx hxid s' hs'
      rcases List.mem_append.mp hx with h1 | h1
      · exact hmin x h1 hxid s' hs'
      · obtain rfl := List.mem_singleton.mp h1
        exact absurd hxid hid

theorem worstInv_foldl (bridge_ids : List ℤ) (l : List Bridge) :
    ∀ (seen : List Bridge) (st : Option (ℚ × ℤ)),
      WorstInv bridge_ids seen st →
      WorstInv bridge_ids (seen ++ l)
        (l.foldl (find_worst_step bridge_ids) st) := by
  induction l with
  | nil => intro seen st h; simpa using h
  | cons b rest ih =>
    intro seen st h
    have h1 := worstInv_step bridge_ids seen st b h
    have h2 := ih (seen ++ [b]) _ h1
    rw [List.append_assoc] at h2
    simpa using h2

/-- Full characterization of `find_worst_bci` under the documented
preconditions: it returns the candidate whose first non-missing score is
lexicographically least (score first, then id). Shared by the route
planner proofs. -/
theorem find_worst_bci_min (bridges : List Bridge) (bridge_ids : List ℤ)
    (hne : bridge_ids ≠ [])
    (hex : ∀ i ∈ bridge_ids, ∃ b ∈ bridges, b.id = i ∧
      ∃ s ∈ b.bci_scores, s ≠ MISSING_BCI) :
    ∃ b ∈ bridges, b.id ∈ bridge_ids ∧
      find_worst_bci bridges bridge_ids = some b.id ∧
      ∃ s, first_bci_score b.bci_scores = some s ∧
        ∀ b' ∈ bridges, b'.id ∈ bridge_ids →
          ∀ s', first_bci_score b'.bci_scores = some s' →
            s < s' ∨ (s = s' ∧ b.id ≤ b'.id) := by
  have hInv := worstInv_foldl bridge_ids bridges [] none
    (by simp only [WorstInv]; intro b hb; cases hb)
  rw [List.nil_append] at hInv
  rcases hst : bridges.foldl (find_worst_step bridge_ids) none with _ | ⟨s, w⟩
  · rw [hst] at hInv
    simp only [WorstInv] at hInv
    obtain ⟨i0, hi0⟩ := List.exists_mem_of_ne_nil bridge_ids hne
    obtain ⟨b0, hb0, hb0id, hs0⟩ := hex i0 hi0
    obtain ⟨s0, hs0f⟩ := first_bci_score_isSome _ hs0
    have hn := hInv b0 hb0 (by rw [hb0id]; exact hi0)
    rw [hn] at hs0f
    cases hs0f
  · rw [hst] at hInv
    simp only [WorstInv] at hInv
    obtain ⟨⟨b0, hb0, hid, hw, hf⟩, hmin⟩ := hInv
    refine ⟨b0, hb0, hid, ?_, s, hf, ?_⟩
    · unfold find_worst_bci
      rw [hst, hw]
      rfl
    · intro b' hb' hbid' s' hs'
      rcases hmin b' hb' hbid' s' hs' with h2 | h2
      · left; exact h2
      · right
        refine ⟨h2.1, ?_⟩
        rw [hw]
        exact h2.2

/-- C3: for a collection with unique identifiers and a non-empty candidate
list whose bridges all exist and carry at least one non-missing score,
`find_worst_bci` returns the candidate whose first non-missing score
(most recent first; only that score participates) is numerically lowest,
the smaller identifier winning ties. Determinism is structural: the
embedding is a function of its inputs. -/
theorem find_worst_bci_spec (bridges : List Bridge) (bridge_ids : List ℤ)
    (huniq : (bridges.map Bridge.id).Nodup)
    (hne : bridge_ids ≠ [])
    (hex : ∀ i ∈ bridge_ids, ∃ b ∈ bridges, b.id = i ∧
      ∃ s ∈ b.bci_scores, s ≠ MISSING_BCI) :
    ∃ b ∈ bridges, b.id ∈ bridge_ids ∧
      find_worst_bci bridges bridge_ids = some b.id ∧
      ∃ s, first_bci_score b.bci_scores = some s ∧
        ∀ b' ∈ bridges, b'.id ∈ bridge_ids →
          ∀ s', first_bci_score b'.bci_scores = some s' →
            s < s' ∨ (s = s' ∧ b.id ≤ b'.id) :=
  find_worst_bci_min bridges bridge_ids hne hex

noncomputable def wb3 : Bridge := mkBridge 2 0 0 ["2013"] [65]

/-- Witness for C3 at a concrete two-bridge collection. -/
theorem find_worst_bci_spec_witness :
    ∃ b ∈ [wb1, wb3], b.id ∈ [(1 : ℤ), 2] ∧
      find_worst_bci [wb1, wb3] [1, 2] = some b.id ∧
      ∃ s, first_bci_score b.bci_scores = some s ∧
        ∀ b' ∈ [wb1, wb3], b'.id ∈ [(1 : ℤ), 2] →
          ∀ s', first_bci_score b'.bci_scores = some s' →
            s < s' ∨ (s = s' ∧ b.id ≤ b'.id) :=
  find_worst_bci_spec [wb1, wb3] [1, 2] (by decide) (by decide) (by decide)

/-! ### C1 and C9: the route planner -/

/-- The inspector's position after following the visited entries from the
start position `p`: each entry moves the position via the source's
position-update loop (`next_coords`). -/
noncomputable def pos_after (bridges : List Bridge) (p : ℝ × ℝ)
    (visited : List (Option ℤ)) : ℝ × ℝ :=
  visited.foldl (fun q x => next_coords bridges x q) p

/-- The route property of C1: every entry names a bridge of the collection
within `radius` of the position reached by the previous entries (the
start position for the first entry). -/
def route_chain (bridges : List Bridge) (radius : ℝ) (p : ℝ × ℝ) :
    List (Option ℤ) → Prop
  | [] => True
  | x :: rest =>
      (∃ b ∈ bridges, x = some b.id ∧
        calculate_distance b.lat b.lon p.1 p.2 ≤ radius) ∧
      route_chain bridges radius (next_coords bridges x p) rest

theorem pos_after_append (bridges : List Bridge) (p : ℝ × ℝ)
    (v : List (Option ℤ)) (x : Option ℤ) :
    pos_after bridges p (v ++ [x]) =
      next_coords bridges x (pos_after bridges p v) := by
  simp [pos_after, List.foldl_append]

theorem pos_after_cons (bridges : List Bridge) (p : ℝ × ℝ)
    (y : Option ℤ) (v : List (Option ℤ)) :
    pos_after bridges p (y :: v) =
      pos_after bridges (next_coords bridges y p) v := by
  simp [pos_after]

theorem route_chain_append (bridges : List Bridge) (radius : ℝ)
    (v : List (Option ℤ)) :
    ∀ (p : ℝ × ℝ) (x : Option ℤ),
      route_chain bridges radius p v →
      (∃ b ∈ bridges, x = some b.id ∧
        calculate_distance b.lat b.lon (pos_after bridges p v).1
          (pos_after bridges p v).2 ≤ radius) →
      route_chain bridges radius p (v ++ [x]) := by
  induction v with
  | nil =>
    intro p x _ hx
    simp only [List.nil_append, route_chain, and_true]
    simpa [pos_after] using hx
  | cons y v ih =>
    intro p x h hx
    simp only [List.cons_append, route_chain] at h ⊢
    refine ⟨h.1, ih _ x h.2 ?_⟩
    rw [← pos_after_cons]
    exact hx

theorem map_route_candidates_mem (bridges : List Bridge)
    (radius cur_lat cur_lon : ℝ) (visited : List (Option ℤ)) :
    ∀ i ∈ map_route_candidates bridges radius cur_lat cur_lon visited,
      ∃ b ∈ bridges, b.id = i ∧ some b.id ∉ visited ∧
        calculate_distance b.lat b.lon cur_lat cur_lon ≤ radius := by
  induction bridges with
  | nil => intro i hi; simp [map_route_candidates] at hi
  | cons b rest ih =>
    intro i hi
    rw [map_route_candidates] at hi
    by_cases h1 : some b.id ∉ visited
    · by_cases h2 : calculate_distance b.lat b.lon cur_lat cur_lon ≤ radius
      · rw [if_pos h1, if_pos h2] at hi
        rcases List.mem_cons.mp hi with rfl | hi2
        · exact ⟨b, List.mem_cons_self b rest, rfl, h1, h2⟩
        · obtain ⟨b2, hb2, h3⟩ := ih i hi2
          exact ⟨b2, List.mem_cons_of_mem b hb2, h3⟩
      · rw [if_pos h1, if_neg h2] at hi
        obtain ⟨b2, hb2, h3⟩ := ih i hi
        exact ⟨b2, List.mem_cons_of_mem b hb2, h3⟩
    · rw [if_neg h1] at hi
      obtain ⟨b2, hb2, h3⟩ := ih i hi
      exact ⟨b2, List.mem_cons_of_mem b hb2, h3⟩

theorem map_route_fuel_eq (bridges : List Bridge) (radius : ℝ)
    (max_bridges : ℤ) :
    ∀ (fuel : ℕ) (cur_lat cur_lon : ℝ) (visited : List (Option ℤ)),
      (max_bridges - visited.length).toNat ≤ fuel →
      map_route_fuel bridges radius max_bridges fuel cur_lat cur_lon
          visited =
        some (map_route_go bridges radius max_bridges cur_lat cur_lon
          visited) := by
  intro fuel
  induction fuel with
  | zero =>
    intro cur_lat cur_lon visited h
    have hg : ¬ ((visited.length : ℤ) < max_bridges) := by omega
    rw [map_route_fuel, map_route_go]
    rw [if_neg hg, dif_neg hg]
  | succ f ih =>
    intro cur_lat cur_lon visited h
    rw [map_route_fuel, map_route_go]
    by_cases hg : (visited.length : ℤ) < max_bridges
    · rw [if_pos hg, dif_pos hg]
      by_cases hc : map_route_candidates bridges radius cur_lat cur_lon
          visited = []
      · rw [if_pos hc, if_pos hc]
      · rw [if_neg hc, if_neg hc]
        exact ih _ _ _ (by simp only [List.length_append,
          List.length_cons, List.length_nil]; omega)
    · rw [if_neg hg, dif_neg hg]

theorem map_route_fuel_inv (bridges : List Bridge) (radius : ℝ)
    (max_bridges : ℤ) (lat0 lon0 : ℝ)
    (hscores : ∀ b ∈ bridges, ∃ s ∈ b.bci_scores, s ≠ MISSING_BCI) :
    ∀ (fuel : ℕ) (visited res : List (Option ℤ)),
      map_route_fuel bridges radius max_bridges fuel
          (pos_after bridges (lat0, lon0) visited).1
          (pos_after bridges (lat0, lon0) visited).2 visited = some res →
      visited.Nodup → route_chain bridges radius (lat0, lon0) visited →
      res.Nodup ∧ route_chain bridges radius (lat0, lon0) res ∧
        (res.length ≤ max_bridges.toNat ∨ res.length = visited.length) := by
  intro fuel
  induction fuel with
  | zero =>
    intro visited res h hnd hch
    rw [map_route_fuel] at h
    by_cases hg : (visited.length : ℤ) < max_bridges
    · rw [if_pos hg] at h
      by_cases hc : map_route_candidates bridges radius
          (pos_after bridges (lat0, lon0) visited).1
          (pos_after bridges (lat0, lon0) visited).2 visited = []
      · rw [if_pos hc] at h
        obtain rfl := Option.some.inj h
        exact ⟨hnd, hch, Or.inr rfl⟩
      · rw [if_neg hc] at h
        exact Option.noConfusion h
    · rw [if_neg hg] at h
      obtain rfl := Option.some.inj h
      exact ⟨hnd, hch, Or.inr rfl⟩
  | succ f ih =>
    intro visited res h hnd hch
    rw [map_route_fuel] at h
    by_cases hg : (visited.length : ℤ) < max_bridges
    · rw [if_pos hg] at h
      by_cases hc : map_route_candidates bridges radius
          (pos_after bridges (lat0, lon0) visited).1
          (pos_after bridges (lat0, lon0) visited).2 visited = []
      · rw [if_pos hc] at h
        obtain rfl := Option.some.inj h
        exact ⟨hnd, hch, Or.inr rfl⟩
      · rw [if_neg hc] at h
        have hex : ∀ i ∈ map_route_candidates bridges radius
            (pos_after bridges (lat0, lon0) visited).1
            (pos_after bridges (lat0, lon0) visited).2 visited,
            ∃ b ∈ bridges, b.id = i ∧
              ∃ s ∈ b.bci_scores, s ≠ MISSING_BCI := by
          intro i hi
          obtain ⟨b, hb, hbi, _hnv, _hd⟩ :=
            map_route_candidates_mem bridges radius _ _ visited i hi
          exact ⟨b, hb, hbi, hscores b hb⟩
        obtain ⟨b, hbB, hbidc, hwEq, _s, _hf, _hmin⟩ :=
          find_worst_bci_min bridges _ hc hex
        obtain ⟨b2, hb2, hb2id, hnv, hd⟩ :=
          map_route_candidates_mem bridges radius _ _ visited b.id hbidc
        rw [hwEq] at h
        rw [Prod.mk.eta] at h
        rw [← pos_after_append bridges (lat0, lon0) visited (some b.id)] at h
        have hnd2 : (visited ++ [some b.id]).Nodup := by
          rw [List.nodup_append]
          refine ⟨hnd, List.nodup_singleton _, ?_⟩
          intro x hx
          simp only [List.mem_singleton]
          intro hxe
          rw [hxe] at hx
          rw [← hb2id] at hx
          exact hnv hx
        have hch2 : route_chain bridges radius (lat0, lon0)
            (visited ++ [some b.id]) := by
          refine route_chain_append bridges radius visited (lat0, lon0)
            (some b.id) hch ⟨b2, hb2, ?_, hd⟩
          rw [hb2id]
        obtain ⟨hnd3, hch3, hlen3⟩ := ih (visited ++ [some b.id]) res h
          hnd2 hch2
        refine ⟨hnd3, hch3, Or.inl ?_⟩
        rcases hlen3 with h2 | h2
        · exact h2
        · rw [h2]
          simp only [List.length_append, List.length_cons, List.length_nil]
          omega
    · rw [if_neg hg] at h
      obtain rfl := Option.some.inj h
      exact ⟨hnd, hch, Or.inr rfl⟩

/-- C9: the `while` loop of `map_route` terminates within
`max(max_bridges, 0)` iterations on every input: running the loop with
that much fuel never exhausts it (each iteration either appends one
entry, bringing the route length up to `max_bridges`, or finds no
candidates and stops), and yields exactly `map_route`'s result. -/
theorem map_route_terminates (bridges : List Bridge) (lat lon : ℝ)
    (max_bridges : ℤ) (radius : ℝ) :
    map_route_fuel bridges radius max_bridges max_bridges.toNat lat lon [] =
      some (map_route bridges lat lon max_bridges radius) := by
  rw [map_route]
  exact map_route_fuel_eq bridges radius max_bridges max_bridges.toNat
    lat lon [] (by simp)

/-- Counterexample for C1 as stated: with a negative `max_bridges` the
returned route is empty, whose length (0) is not at most `max_bridges`;
the claim's length bound fails although its preconditions hold. -/
theorem map_route_claim_cex :
    (∀ b ∈ ([] : List Bridge), ∃ s ∈ b.bci_scores, s ≠ MISSING_BCI) ∧
    (0 : ℝ) < 1 ∧
    ¬ (((map_route [] 0 0 (-1) 1).length : ℤ) ≤ -1) := by
  refine ⟨by simp, one_pos, ?_⟩
  rw [map_route, map_route_go]
  simp

/-- C1 (amended): under the planner's preconditions (sequential unique
identifiers, every bridge has a non-missing score, positive radius), the
route returned by `map_route` has no duplicate entries, its length is at
most `max(max_bridges, 0)`, and every entry names a bridge within
`radius` of the position of the previous entry (the start point for the
first entry). -/
theorem map_route_spec (bridges : List Bridge) (lat lon : ℝ)
    (max_bridges : ℤ) (radius : ℝ)
    (hseq : bridges.map Bridge.id =
      (List.range bridges.length).map (fun k : ℕ => (k : ℤ) + 1))
    (hscores : ∀ b ∈ bridges, ∃ s ∈ b.bci_scores, s ≠ MISSING_BCI)
    (hradius : 0 < radius) :
    (map_route bridges lat lon max_bridges radius).Nodup ∧
    (map_route bridges lat lon max_bridges radius).length ≤
      max_bridges.toNat ∧
    route_chain bridges radius (lat, lon)
      (map_route bridges lat lon max_bridges radius) := by
  have hfe := map_route_fuel_eq bridges radius max_bridges
    max_bridges.toNat lat lon [] (by simp)
  obtain ⟨hnd, hch, hlen⟩ := map_route_fuel_inv bridges radius max_bridges
    lat lon hscores max_bridges.toNat []
    (map_route bridges lat lon max_bridges radius)
    (by exact hfe) List.nodup_nil trivial
  refine ⟨hnd, ?_, hch⟩
  rcases hlen with h | h
  · exact h
  · rw [h]
    exact Nat.zero_le _

/-- Witness for C1 (amended) at a concrete one-bridge collection. -/
theorem map_route_spec_witness :
    (map_route [wb1] 0 0 3 1).Nodup ∧
    (map_route [wb1] 0 0 3 1).length ≤ (3 : ℤ).toNat ∧
    route_chain [wb1] 1 (0, 0) (map_route [wb1] 0 0 3 1) :=
  map_route_spec [wb1] 0 0 3 1 (by decide) (by decide) one_pos

/-! ### C6: properties of the distance computation -/

theorem round3_nonneg (x : ℝ) (hx : 0 ≤ x) : 0 ≤ round3 x := by
  unfold round3
  apply div_nonneg _ (by norm_num)
  have h : (0 : ℤ) ≤ round (x * 1000) := by
    rw [round_eq]
    exact Int.floor_nonneg.mpr (by linarith)
  exact_mod_cast h

/-- C6: `calculate_distance` is symmetric in its two endpoints (exactly,
in the embedding over the reals, hence in particular up to rounding),
always non-negative, and zero from a point to itself. -/
theorem calculate_distance_spec :
    (∀ lat1 lon1 lat2 lon2 : ℝ,
      calculate_distance lat1 lon1 lat2 lon2 =
        calculate_distance lat2 lon2 lat1 lon1) ∧
    (∀ lat1 lon1 lat2 lon2 : ℝ,
      0 ≤ calculate_distance lat1 lon1 lat2 lon2) ∧
    (∀ lat lon : ℝ, calculate_distance lat lon lat lon = 0) := by
  have hsin : ∀ x y : ℝ, Real.sin ((x - y) / 2) ^ 2 =
      Real.sin ((y - x) / 2) ^ 2 := by
    intro x y
    rw [show (x - y) / 2 = -((y - x) / 2) by ring, Real.sin_neg]
    ring
  refine ⟨?_, ?_, ?_⟩
  · intro lat1 lon1 lat2 lon2
    unfold calculate_distance
    rw [hsin (deg_to_rad lat2) (deg_to_rad lat1),
      hsin (deg_to_rad lon2) (deg_to_rad lon1),
      mul_comm (Real.cos (deg_to_rad lat1)) (Real.cos (deg_to_rad lat2))]
  · intro lat1 lon1 lat2 lon2
    unfold calculate_distance
    apply round3_nonneg
    apply mul_nonneg
    · apply mul_nonneg (by norm_num)
      exact Real.arcsin_nonneg.mpr (Real.sqrt_nonneg _)
    · unfold EARTH_RADIUS
      norm_num
  · intro lat lon
    unfold calculate_distance
    rw [sub_self, sub_self, zero_div, Real.sin_zero]
    norm_num [Real.sqrt_zero, Real.arcsin_zero, round3]

/-! ### C7: the span micro-parser -/

/-- Value of a run of decimal digit characters, as Python's `float` reads
the all-digit slice `raw_spans[i+1:j]`. -/
def span_digits_val (cs : List Char) : ℕ :=
  cs.foldl (fun a c => 10 * a + (c.toNat - 48)) 0

theorem length_dropWhile_le' {α : Type} (p : α → Bool) :
    ∀ l : List α, (l.dropWhile p).length ≤ l.length := by
  intro l
  induction l with
  | nil => simp
  | cons a l ih =>
    by_cases h : p a = true
    · rw [List.dropWhile_cons_of_pos h]
      exact le_trans ih (Nat.le_succ _)
    · rw [List.dropWhile_cons_of_neg (by simpa using h)]

/-- `clean_span_data`'s character scan, over the remaining characters with
`i` the absolute position of the first of them in the raw string. At an
`=` past position 6 the following digit run (Python's
`raw_spans[j].isdigit()` loop) is taken as a span length; an empty run
would make the source's `float('')` raise, embedded as `none`. -/
def clean_span_chars (i : ℕ) : List Char → Option (List ℚ)
  | [] => some []
  | c :: rest =>
    if c = '=' ∧ i > 6 then
      if rest.takeWhile Char.isDigit = [] then none
      else
        (clean_span_chars (i + 1 + (rest.takeWhile Char.isDigit).length)
          (rest.dropWhile Char.isDigit)).map
          (fun vs => ((span_digits_val (rest.takeWhile Char.isDigit) : ℕ) :
            ℚ) :: vs)
    else clean_span_chars (i + 1) rest
termination_by cs => cs.length
decreasing_by
  · simp only [List.length_cons]
    have := length_dropWhile_le' Char.isDigit rest
    omega
  · simp only [List.length_cons]
    omega

/-- `clean_span_data(raw_spans)`: scan from position 0. -/
def clean_span_data (raw_spans : String) : Option (List ℚ) :=
  clean_span_chars 0 raw_spans.data

/-- Spec-side value of a number given by its digit sequence
(most significant first). -/
def digits_val (ds : List ℕ) : ℕ := ds.foldl (fun a d => 10 * a + d) 0

/-- Spec-side rendering: the character of a decimal digit. -/
def digitChar (d : ℕ) : Char := Char.ofNat (48 + d)

/-- Spec-side rendering: a number from its digit sequence. -/
def render_num (ds : List ℕ) : List Char := ds.map digitChar

/-- Digit sequence of `n` (least significant first), with explicit fuel so
that the definition is structural. `nat_digits_rev n n` is the full
digit sequence of a positive `n`. -/
def nat_digits_rev : ℕ → ℕ → List ℕ
  | 0, _ => []
  | fuel + 1, n => if n = 0 then [] else n % 10 :: nat_digits_rev fuel (n / 10)

/-- Spec-side rendering of the documented span format's tail
`(k)=<len_k>;(k+1)=<len_{k+1}>;...`, one parenthesised index, an `=`,
the span length's digits and a `;` per span. -/
def render_spans_tail : ℕ → List (List ℕ) → List Char
  | _, [] => []
  | k, ds :: rest =>
    ('(' :: (render_num (nat_digits_rev k k).reverse ++ [')'])) ++
      ('=' :: (render_num ds ++ (';' :: render_spans_tail (k + 1) rest)))

/-- Spec-side rendering of the documented span format
`Total=<total> (1)=<len1>;(2)=<len2>;...;(n)=<lenN>;`, numbers given by
their digit sequences. -/
def render_spans (total : List ℕ) (spans : List (List ℕ)) : List Char :=
  "Total=".data ++ (render_num total ++ ([' '] ++ render_spans_tail 1 spans))

theorem digitChar_isDigit {d : ℕ} (h : d < 10) :
    (digitChar d).isDigit = true := by
  interval_cases d <;> decide

theorem digitChar_ne_eq {d : ℕ} (h : d < 10) : digitChar d ≠ '=' := by
  interval_cases d <;> decide

theorem digitChar_toNat {d : ℕ} (h : d < 10) : (digitChar d).toNat = 48 + d := by
  interval_cases d <;> decide

theorem nat_digits_rev_lt (fuel : ℕ) :
    ∀ n, ∀ d ∈ nat_digits_rev fuel n, d < 10 := by
  induction fuel with
  | zero => intro n d hd; simp [nat_digits_rev] at hd
  | succ f ih =>
    intro n d hd
    rw [nat_digits_rev] at hd
    by_cases hn : n = 0
    · rw [if_pos hn] at hd; simp at hd
    · rw [if_neg hn] at hd
      rcases List.mem_cons.mp hd with rfl | hd2
      · exact Nat.mod_lt n (by norm_num)
      · exact ih (n / 10) d hd2

theorem span_digits_val_render :
    ∀ (ds : List ℕ), (∀ d ∈ ds, d < 10) → ∀ a : ℕ,
      (render_num ds).foldl (fun a c => 10 * a + (c.toNat - 48)) a =
        ds.foldl (fun a d => 10 * a + d) a := by
  intro ds
  induction ds with
  | nil => intro h a; rfl
  | cons d ds ih =>
    intro h a
    simp only [render_num, List.map_cons, List.foldl_cons]
    rw [digitChar_toNat (h d (List.mem_cons_self d ds))]
    rw [show 48 + d - 48 = d by omega]
    exact ih (fun x hx => h x (List.mem_cons_of_mem d hx)) (10 * a + d)

theorem takeWhile_digit_block (c : Char) (hc : c.isDigit = false)
    (rest : List Char) :
    ∀ (ds : List ℕ), (∀ d ∈ ds, d < 10) →
      (render_num ds ++ c :: rest).takeWhile Char.isDigit = render_num ds ∧
      (render_num ds ++ c :: rest).dropWhile Char.isDigit = c :: rest := by
  intro ds
  induction ds with
  | nil =>
    intro h
    simp only [render_num, List.map_nil, List.nil_append]
    exact ⟨List.takeWhile_cons_of_neg (by simp [hc]),
      List.dropWhile_cons_of_neg (by simp [hc])⟩
  | cons d ds ih =>
    intro h
    have hd : (digitChar d).isDigit = true :=
      digitChar_isDigit (h d (List.mem_cons_self d ds))
    have iht := ih (fun x hx => h x (List.mem_cons_of_mem d hx))
    simp only [render_num, List.map_cons, List.cons_append]
    constructor
    · rw [List.takeWhile_cons_of_pos hd]
      rw [show (List.map digitChar ds ++ c :: rest).takeWhile Char.isDigit
          = List.map digitChar ds from iht.1]
    · rw [List.dropWhile_cons_of_pos hd]
      exact iht.2

theorem clean_span_chars_skip_le (cs : List Char) :
    ∀ (rest : List Char) (i : ℕ), i + cs.length ≤ 7 →
      clean_span_chars i (cs ++ rest) =
        clean_span_chars (i + cs.length) rest := by
  induction cs with
  | nil => intro rest i h; simp
  | cons c cs ih =>
    intro rest i h
    rw [List.cons_append]
    rw [clean_span_chars]
    have hcond : ¬ (c = '=' ∧ i > 6) := by
      rintro ⟨-, hi⟩
      simp only [List.length_cons] at h
      omega
    rw [if_neg hcond]
    rw [ih rest (i + 1) (by simp only [List.length_cons] at h; omega)]
    congr 1
    simp only [List.length_cons]
    omega

theorem clean_span_chars_skip_ne :
    ∀ (cs : List Char), (∀ c ∈ cs, c ≠ '=') →
      ∀ (rest : List Char) (i : ℕ),
        clean_span_chars i (cs ++ rest) =
          clean_span_chars (i + cs.length) rest := by
  intro cs
  induction cs with
  | nil => intro h rest i; simp
  | cons c cs ih =>
    intro h rest i
    rw [List.cons_append]
    rw [clean_span_chars]
    have hcond : ¬ (c = '=' ∧ i > 6) := by
      rintro ⟨hce, -⟩
      exact h c (List.mem_cons_self c cs) hce
    rw [if_neg hcond]
    rw [ih (fun x hx => h x (List.mem_cons_of_mem c hx)) rest (i + 1)]
    congr 1
    simp only [List.length_cons]
    omega

theorem clean_span_chars_tail :
    ∀ (spans : List (List ℕ)) (k i : ℕ), 6 < i →
      (∀ ds ∈ spans, ds ≠ [] ∧ ∀ d ∈ ds, d < 10) →
      clean_span_chars i (render_spans_tail k spans) =
        some (spans.map (fun ds => ((digits_val ds : ℕ) : ℚ))) := by
  intro spans
  induction spans with
  | nil => intro k i hi hsp; simp [render_spans_tail, clean_span_chars]
  | cons ds spans ih =>
    intro k i hi hsp
    obtain ⟨hdsne, hdsdig⟩ := hsp ds (List.mem_cons_self ds spans)
    simp only [render_spans_tail]
    have hne1 : ∀ c ∈ '(' ::
        (render_num (nat_digits_rev k k).reverse ++ [')']), c ≠ '=' := by
      intro c hc
      rcases List.mem_cons.mp hc with rfl | hc2
      · decide
      · rcases List.mem_append.mp hc2 with hc3 | hc3
        · simp only [render_num, List.mem_map] at hc3
          obtain ⟨d, hd, rfl⟩ := hc3
          exact digitChar_ne_eq
            (nat_digits_rev_lt k k d (List.mem_reverse.mp hd))
        · rw [List.mem_singleton.mp hc3]; decide
    rw [clean_span_chars_skip_ne _ hne1 _ i]
    rw [clean_span_chars]
    rw [if_pos ⟨rfl, by omega⟩]
    obtain ⟨htw, hdw⟩ := takeWhile_digit_block ';' (by decide)
      (render_spans_tail (k + 1) spans) ds hdsdig
    rw [htw, hdw]
    have hne2 : ¬ (render_num ds = []) := by
      simp only [render_num, List.map_eq_nil_iff]
      exact hdsne
    rw [if_neg hne2]
    rw [show (';' :: render_spans_tail (k + 1) spans) =
      [';'] ++ render_spans_tail (k + 1) spans from rfl]
    rw [clean_span_chars_skip_ne [';']
      (by intro c hc; rw [List.mem_singleton.mp hc]; decide) _ _]
    rw [ih (k + 1) _ (by omega)
      (fun x hx => hsp x (List.mem_cons_of_mem ds hx))]
    simp only [Option.map_some', List.map_cons]
    rw [show span_digits_val (render_num ds) = digits_val ds from
      span_digits_val_render ds hdsdig 0]

/-- C7: every string in the documented span format
`Total=<total> (1)=<len1>;(2)=<len2>;...;(n)=<lenN>;` parses to exactly
one value per span in textual order: the `=` of the `Total=` prefix (at
position 5, not past position 6) is never taken as a span delimiter,
every later `=` introduces a span whose following digit run is read as
its value; and the literal example `'Total=64  (1)=12;(2)=19;(3)=21;(4)=12;'`
yields `[12.0, 19.0, 21.0, 12.0]`. -/
theorem clean_span_data_spec :
    (∀ (total : List ℕ) (spans : List (List ℕ)),
      (∀ d ∈ total, d < 10) →
      (∀ ds ∈ spans, ds ≠ [] ∧ ∀ d ∈ ds, d < 10) →
      clean_span_data ⟨render_spans total spans⟩ =
        some (spans.map (fun ds => ((digits_val ds : ℕ) : ℚ)))) ∧
    clean_span_data "Total=64  (1)=12;(2)=19;(3)=21;(4)=12;" =
      some [12, 19, 21, 12] := by
  constructor
  · intro total spans htotal hspans
    show clean_span_chars 0 (render_spans total spans) = _
    unfold render_spans
    rw [clean_span_chars_skip_le "Total=".data _ 0 (by decide)]
    have hne1 : ∀ c ∈ render_num total, c ≠ '=' := by
      intro c hc
      simp only [render_num, List.mem_map] at hc
      obtain ⟨d, hd, rfl⟩ := hc
      exact digitChar_ne_eq (htotal d hd)
    rw [clean_span_chars_skip_ne (render_num total) hne1 _ _]
    rw [clean_span_chars_skip_ne [' ']
      (by intro c hc; rw [List.mem_singleton.mp hc]; decide) _ _]
    refine clean_span_chars_tail spans 1 _ ?_ hspans
    have h6 : "Total=".data.length = 6 := by decide
    simp only [h6, List.length_singleton]
    omega
  · have hdata : ("Total=64  (1)=12;(2)=19;(3)=21;(4)=12;").data =
        "Total=".data ++ ("64  ".data ++
          render_spans_tail 1 [[1, 2], [1, 9], [2, 1], [1, 2]]) := by decide
    show clean_span_chars 0
      ("Total=64  (1)=12;(2)=19;(3)=21;(4)=12;").data = _
    rw [hdata]
    rw [clean_span_chars_skip_le "Total=".data _ 0 (by decide)]
    rw [clean_span_chars_skip_ne "64  ".data (by decide) _ _]
    rw [clean_span_chars_tail [[1, 2], [1, 9], [2, 1], [1, 2]] 1 _
      (by decide) (by decide)]
    decide

/-- Witness for C7 at a concrete rendered format string
(`Total=7 (1)=3;(2)=45;`). -/
theorem clean_span_data_spec_witness :
    (∀ d ∈ [(7 : ℕ)], d < 10) ∧
    (∀ ds ∈ [[(3 : ℕ)], [4, 5]], ds ≠ [] ∧ ∀ d ∈ ds, d < 10) ∧
    clean_span_data ⟨render_spans [7] [[3], [4, 5]]⟩ =
      some ([[(3 : ℕ)], [4, 5]].map (fun ds => ((digits_val ds : ℕ) : ℚ))) :=
  ⟨by decide, by decide,
    clean_span_data_spec.1 [7] [[3], [4, 5]] (by decide) (by decide)⟩
